import Mathlib

/-!
Shallow embedding of the core data logic of ranking.py, a dashboard that
merges four university-ranking tables, intersects their institution names,
filters rows by year/institution, parses textual rank ranges, and looks up
metric values.  Python strings are modeled as lists of characters so that
string primitives (replace, split, int parsing) can be reasoned about
directly; tables are lists of record structures; pandas missing values
(NaN/None) are modeled with Option.
-/

namespace Ranking

/-- Whitespace test used by Python int() stripping (common ASCII whitespace). -/
def isWsChar (c : Char) : Bool :=
  c = ' ' || c = '\t' || c = '\n' || c = '\r'

/-- Strip leading and trailing whitespace, as Python int() does before parsing. -/
def stripWs (l : List Char) : List Char :=
  ((l.dropWhile isWsChar).reverse.dropWhile isWsChar).reverse

/-- ASCII decimal digit test. -/
def isDigitCh (c : Char) : Bool :=
  '0' ≤ c && c ≤ '9'

/-- Value of a string of decimal digits. -/
def digitsVal (l : List Char) : Nat :=
  l.foldl (fun n c => n * 10 + (c.toNat - '0'.toNat)) 0

/-- Parse a nonempty all-digit string, otherwise fail. -/
def parseDigits (l : List Char) : Option Nat :=
  if l = [] then none
  else if l.all isDigitCh then some (digitsVal l) else none

/-- Model of Python int(str): strip whitespace, optional sign, decimal digits;
any other content raises, modeled as none.  (Underscore digit separators and
non-ASCII digits, which CPython also accepts, do not occur in this data and
are not modeled.) -/
def pyInt (s : List Char) : Option Int :=
  match stripWs s with
  | [] => none
  | c :: rest =>
    if c = '-' then (parseDigits rest).map (fun n : Nat => -(n : Int))
    else if c = '+' then (parseDigits rest).map (fun n : Nat => (n : Int))
    else (parseDigits (c :: rest)).map (fun n : Nat => (n : Int))

/-- Model of rank_str.replace of the en-dash by an ASCII hyphen
(both are single characters, so replace is a character map). -/
def pyReplace (s : List Char) : List Char :=
  s.map (fun c => if c = '–' then '-' else c)

/-- Model of Python str.split(sep) for a one-character separator:
always returns at least one (possibly empty) part. -/
def splitOnChar (sep : Char) : List Char → List (List Char)
  | [] => [[]]
  | c :: cs =>
    if c = sep then [] :: splitOnChar sep cs
    else
      match splitOnChar sep cs with
      | [] => [[c]]
      | p :: ps => (c :: p) :: ps

/-- Python floor division a // b. -/
def pyFloorDiv (a b : Int) : Int :=
  Int.fdiv a b

/-- parse_rank_range from ranking.py: replace the en-dash by a hyphen, split
on the hyphen; two parts parse as two ints giving (low, high, (low+high)//2);
otherwise int(rank_str) gives (v, v, v); any failure (try/except) gives
(None, None, None). -/
def parse_rank_range (rank_str : List Char) : Option Int × Option Int × Option Int :=
  match splitOnChar '-' (pyReplace rank_str) with
  | [p, q] =>
    match pyInt p, pyInt q with
    | some a, some b => (some a, some b, some (pyFloorDiv (a + b) 2))
    | _, _ => (none, none, none)
  | _ =>
    match pyInt rank_str with
    | some v => (some v, some v, some v)
    | none => (none, none, none)

/-- build_rank_range_df from ranking.py: keep rows whose metric cell is
non-missing, attach (low, high, mid) = parse_rank_range(str(cell)), then keep
rows whose mid is non-missing.  A row is any α, the metric column is a
function to an optional cell (none = NaN/None); cells are modeled as strings,
on which Python str() is the identity. -/
def build_rank_range_df {α : Type} (rows : List α) (metric : α → Option (List Char)) :
    List (α × (Option Int × Option Int × Option Int)) :=
  (rows.filterMap (fun r => (metric r).map (fun v => (r, parse_rank_range v)))).filter
    (fun p => p.2.2.2.isSome)

/-- A row of one source table as used by the filtering and reconciliation
logic: the Year column (an integer after loading) and the IPEDS_Name column
(a string after loading). -/
structure SRow where
  year : Int
  ipedsName : String
deriving DecidableEq, Repr

/-- The IPEDS_Name column of a table. -/
def colNames (df : List SRow) : List String :=
  df.map (fun r => r.ipedsName)

/-- The Year column of a table. -/
def colYears (df : List SRow) : List Int :=
  df.map (fun r => r.year)

/-- Python set(df[IPEDS_Name]). -/
def pySet (df : List SRow) : Finset String :=
  (colNames df).toFinset

/-- get_common_universities from ranking.py: the intersection of the four
IPEDS_Name column sets. -/
def get_common_universities (times_df qs_df usn_df washington_df : List SRow) : Finset String :=
  ((pySet times_df ∩ pySet qs_df) ∩ pySet usn_df) ∩ pySet washington_df

/-- The per-source global filter of ranking.py (times_filtered and its
siblings): rows whose Year is in the selected years and whose IPEDS_Name is
in the given pair of institutions. -/
def times_filtered (df : List SRow) (selected_years : List Int) (unis : List String) :
    List SRow :=
  df.filter (fun r => decide (r.year ∈ selected_years) && decide (r.ipedsName ∈ unis))

/-- Python max(xs, default=None): none on an empty collection, else the
maximum element. -/
def pyMax : List Int → Option Int
  | [] => none
  | x :: xs =>
    some (match pyMax xs with
          | none => x
          | some m => max x m)

/-- Helper for pandas Series.unique: keep the first occurrence of each value,
skipping values already seen. -/
def uniqueAux {α : Type} [DecidableEq α] (seen : List α) : List α → List α
  | [] => []
  | x :: xs => if x ∈ seen then uniqueAux seen xs else x :: uniqueAux (x :: seen) xs

/-- pandas Series.unique: distinct values in order of first appearance. -/
def uniquePd {α : Type} [DecidableEq α] (l : List α) : List α :=
  uniqueAux [] l

/-- The Overview tab's latest-year computation:
max(sub[Year].unique(), default=None). -/
def latest_year_default (sub : List SRow) : Option Int :=
  pyMax (uniquePd (colYears sub))

/-- The per-tab latest-year computation (latest_times_year and its siblings):
max of the selected years that occur in the filtered subset, default None. -/
def latest_times_year (selected_years : List Int) (sub : List SRow) : Option Int :=
  pyMax (selected_years.filter (fun y => decide (y ∈ uniquePd (colYears sub))))

/-- extra_times_unis and its siblings from ranking.py: names in the source
table that are not common and not the anchor (NJIT), sorted ascending. -/
def extra_times_unis (df : List SRow) (common_universities : Finset String)
    (njitName : String) : List String :=
  List.insertionSort (fun a b : String => a ≤ b)
    ((uniquePd (colNames df)).filter
      (fun u => decide (u ∉ common_universities) && decide (u ≠ njitName)))

/-- A row of the combined table as used by get_filtered_combined_df: the
IPEDS_Name column and the New_Jersey_University column. -/
structure CRow where
  ipedsName : String
  nj : String
deriving DecidableEq, Repr

/-- get_filtered_combined_df from ranking.py: keep rows whose IPEDS_Name is
in the common set; when the NJ filter is Yes or No also require the
New_Jersey_University flag to equal it; any other filter value (All) adds no
restriction. -/
def get_filtered_combined_df (combined_df : List CRow) (common_universities : Finset String)
    (nj_filter : String) : List CRow :=
  let base := combined_df.filter (fun r => decide (r.ipedsName ∈ common_universities))
  if nj_filter = "Yes" then base.filter (fun r => r.nj == "Yes")
  else if nj_filter = "No" then base.filter (fun r => r.nj == "No")
  else base

/-- A row of a metric-bearing table for get_metric_value: the IPEDS_Name key
and the cells of the other columns, none modeling a NaN/missing value. -/
structure MRow (α : Type) where
  ipedsName : String
  cells : String → Option α

/-- A metric-bearing table: its column names and rows.  Accessing a column
not in cols raises KeyError in pandas, caught by get_metric_value. -/
structure MTable (α : Type) where
  cols : List String
  rows : List (MRow α)

/-- get_metric_value from ranking.py: the value of the metric column in the
first row matching the university; the except-branch (no matching row, or
column absent) and the pd.notna test both yield the sentinel, modeled none. -/
def get_metric_value {α : Type} (df : MTable α) (university column : String) : Option α :=
  if column ∈ df.cols then
    match (df.rows.filter (fun r => r.ipedsName == university)).head? with
    | some r => r.cells column
    | none => none
  else none

/-- C1: get_common_universities returns exactly the set-theoretic intersection
of the four tables' IPEDS_Name columns — a name is in the result iff it occurs
in every table — and if any one table is empty the result is the empty set. -/
theorem claim_C1_reconcile_is_intersection (t q u w : List SRow) (x : String) :
    (x ∈ get_common_universities t q u w ↔
      x ∈ colNames t ∧ x ∈ colNames q ∧ x ∈ colNames u ∧ x ∈ colNames w)
    ∧ (t = [] ∨ q = [] ∨ u = [] ∨ w = [] → get_common_universities t q u w = ∅) := by
  constructor
  · simp [get_common_universities, pySet, Finset.mem_inter, List.mem_toFinset, and_assoc]
  · intro h
    ext y
    rcases h with h | h | h | h <;> subst h <;>
      simp [get_common_universities, pySet, colNames, Finset.mem_inter]

theorem claim_C1_reconcile_is_intersection_witness :
    get_common_universities [] [⟨2020, "A"⟩] [⟨2020, "A"⟩] [⟨2020, "A"⟩] = ∅ :=
  (claim_C1_reconcile_is_intersection [] [⟨2020, "A"⟩] [⟨2020, "A"⟩] [⟨2020, "A"⟩] "A").2
    (Or.inl rfl)

/-- C9: filtering an already-filtered subset by the same period/id criteria
again yields an identical result, including row order. -/
theorem claim_C9_filter_idempotent (df : List SRow) (selected_years : List Int)
    (unis : List String) :
    times_filtered (times_filtered df selected_years unis) selected_years unis
      = times_filtered df selected_years unis := by
  simp only [times_filtered, List.filter_filter]
  congr 1
  funext r
  rw [Bool.and_self]

/-- C8: get_filtered_combined_df keeps exactly the rows whose IPEDS_Name is in
the common set; with filter Yes it further requires New_Jersey_University =
Yes, with No it requires the flag to be No, and All adds no regional
restriction. -/
theorem claim_C8_region_filter (combined_df : List CRow) (common : Finset String) :
    get_filtered_combined_df combined_df common "All"
        = combined_df.filter (fun r => decide (r.ipedsName ∈ common))
    ∧ get_filtered_combined_df combined_df common "Yes"
        = combined_df.filter
            (fun r => (r.nj == "Yes") && decide (r.ipedsName ∈ common))
    ∧ get_filtered_combined_df combined_df common "No"
        = combined_df.filter
            (fun r => (r.nj == "No") && decide (r.ipedsName ∈ common)) := by
  refine ⟨?_, ?_, ?_⟩ <;> simp only [get_filtered_combined_df]
  · rw [if_neg (by decide), if_neg (by decide)]
  · rw [if_pos trivial, List.filter_filter]
  · rw [if_pos trivial, List.filter_filter, if_neg (by decide), List.filter_filter]

/-- C5: get_metric_value returns the metric value of the first row matching
the institution when the column exists (none of that cell models a missing
value), and returns the sentinel (modeled none) when the institution has no
row, when the metric column does not exist, and on the empty subset; it is a
total function by construction. -/
theorem claim_C5_metric_lookup_total {α : Type} (df : MTable α) (u c : String) :
    (c ∉ df.cols → get_metric_value df u c = none)
    ∧ (df.rows.filter (fun r => r.ipedsName == u) = [] → get_metric_value df u c = none)
    ∧ (∀ r rest, df.rows.filter (fun r => r.ipedsName == u) = r :: rest →
        c ∈ df.cols → get_metric_value df u c = r.cells c)
    ∧ (df.rows = [] → get_metric_value df u c = none) := by
  refine ⟨?_, ?_, ?_, ?_⟩
  · intro h
    simp [get_metric_value, h]
  · intro h
    by_cases hc : c ∈ df.cols <;> simp [get_metric_value, hc, h]
  · intro r rest h hc
    simp [get_metric_value, hc, h]
  · intro h
    by_cases hc : c ∈ df.cols <;> simp [get_metric_value, hc, h]

theorem claim_C5_metric_lookup_total_witness :
    get_metric_value
        ⟨["Rank"], [⟨"NJIT", fun s => if s = "Rank" then some (3 : Int) else none⟩]⟩
        "NJIT" "Rank" = some 3 := by
  have h :=
    (claim_C5_metric_lookup_total
        ⟨["Rank"], [⟨"NJIT", fun s => if s = "Rank" then some (3 : Int) else none⟩]⟩
        "NJIT" "Rank").2.2.1
      ⟨"NJIT", fun s => if s = "Rank" then some (3 : Int) else none⟩ [] rfl
      (by decide)
  simpa using h

theorem mem_uniqueAux {α : Type} [DecidableEq α] (l : List α) :
    ∀ (seen : List α) (a : α), a ∈ uniqueAux seen l ↔ a ∈ l ∧ a ∉ seen := by
  induction l with
  | nil =>
    intro seen a
    simp [uniqueAux]
  | cons x xs ih =>
    intro seen a
    simp only [uniqueAux]
    by_cases hx : x ∈ seen
    · rw [if_pos hx, ih]
      constructor
      · rintro ⟨h1, h2⟩
        exact ⟨List.mem_cons_of_mem x h1, h2⟩
      · rintro ⟨h1, h2⟩
        rcases List.mem_cons.mp h1 with rfl | h1
        · exact absurd hx h2
        · exact ⟨h1, h2⟩
    · rw [if_neg hx]
      constructor
      · intro h
        rcases List.mem_cons.mp h with rfl | h
        · exact ⟨List.mem_cons_self a xs, hx⟩
        · rw [ih] at h
          obtain ⟨h1, h2⟩ := h
          exact ⟨List.mem_cons_of_mem x h1, fun hs => h2 (List.mem_cons_of_mem x hs)⟩
      · rintro ⟨h1, h2⟩
        rcases List.mem_cons.mp h1 with rfl | h1
        · exact List.mem_cons_self a _
        · by_cases hax : a = x
          · subst hax
            exact List.mem_cons_self a _
          · refine List.mem_cons_of_mem x ?_
            rw [ih]
            refine ⟨h1, fun hs => ?_⟩
            rcases List.mem_cons.mp hs with h | h
            · exact hax h
            · exact h2 h

theorem mem_uniquePd {α : Type} [DecidableEq α] (l : List α) (a : α) :
    a ∈ uniquePd l ↔ a ∈ l := by
  rw [uniquePd, mem_uniqueAux]
  simp

theorem pyMax_eq_none_iff (l : List Int) : pyMax l = none ↔ l = [] := by
  cases l <;> simp [pyMax]

theorem pyMax_eq_some_iff : ∀ (l : List Int) (m : Int),
    pyMax l = some m ↔ m ∈ l ∧ ∀ x ∈ l, x ≤ m := by
  intro l
  induction l with
  | nil =>
    intro m
    simp [pyMax]
  | cons x xs ih =>
    intro m
    cases h : pyMax xs with
    | none =>
      have hxs : xs = [] := (pyMax_eq_none_iff xs).1 h
      subst hxs
      constructor
      · intro hm
        simp only [pyMax] at hm
        have : x = m := by
          injection hm
        subst this
        refine ⟨List.mem_cons_self x [], fun y hy => ?_⟩
        rcases List.mem_cons.mp hy with rfl | hy
        · exact le_refl y
        · cases hy
      · rintro ⟨hm, _⟩
        rcases List.mem_cons.mp hm with rfl | hm
        · simp [pyMax]
        · cases hm
    | some k =>
      have hk : k ∈ xs ∧ ∀ y ∈ xs, y ≤ k := (ih k).1 h
      constructor
      · intro hm
        simp only [pyMax, h] at hm
        have hmax : max x k = m := by
          injection hm
        subst hmax
        constructor
        · rcases le_total x k with hle | hle
          · rw [max_eq_right hle]
            exact List.mem_cons_of_mem _ hk.1
          · rw [max_eq_left hle]
            exact List.mem_cons_self _ _
        · intro y hy
          rcases List.mem_cons.mp hy with rfl | hy
          · exact le_max_left _ _
          · exact le_trans (hk.2 y hy) (le_max_right _ _)
      · rintro ⟨hm, hb⟩
        simp only [pyMax, h]
        have h1 : x ≤ m := hb x (List.mem_cons_self _ _)
        have h2 : k ≤ m := hb k (List.mem_cons_of_mem _ hk.1)
        have h3 : m ≤ max x k := by
          rcases List.mem_cons.mp hm with rfl | hm
          · exact le_max_left _ _
          · exact le_trans (hk.2 m hm) (le_max_right _ _)
        rw [le_antisymm (max_le h1 h2) h3]

theorem pyMax_congr_mem (l1 l2 : List Int) (h : ∀ x, x ∈ l1 ↔ x ∈ l2) :
    pyMax l1 = pyMax l2 := by
  cases h1 : pyMax l1 with
  | none =>
    have he : l1 = [] := (pyMax_eq_none_iff l1).1 h1
    subst he
    cases h2 : pyMax l2 with
    | none => rfl
    | some m =>
      have hm := (pyMax_eq_some_iff l2 m).1 h2
      exact absurd ((h m).2 hm.1) (List.not_mem_nil m)
  | some m =>
    have hm := (pyMax_eq_some_iff l1 m).1 h1
    exact ((pyMax_eq_some_iff l2 m).2
      ⟨(h m).1 hm.1, fun y hy => hm.2 y ((h y).2 hy)⟩).symm

/-- C6: the per-tab latest-year value is exactly the maximum of the selected
periods that occur in the subset (some m iff m is such a common period and
bounds all of them; none iff none exists), and the Overview tab's computation
— the plain maximum of the filtered subset's years, with no explicit
intersection — agrees with it whenever the subset was produced by the
period/pair filter for the same selected periods. -/
theorem claim_C6_latest_period (selected_years : List Int) (sub : List SRow) (m : Int) :
    (latest_times_year selected_years sub = some m ↔
      m ∈ selected_years ∧ m ∈ colYears sub ∧
        ∀ y, y ∈ selected_years → y ∈ colYears sub → y ≤ m)
    ∧ (latest_times_year selected_years sub = none ↔
        ∀ y, y ∈ selected_years → y ∉ colYears sub)
    ∧ (∀ df unis, sub = times_filtered df selected_years unis →
        latest_year_default sub = latest_times_year selected_years sub) := by
  have hmemf : ∀ y, y ∈ selected_years.filter
      (fun y => decide (y ∈ uniquePd (colYears sub))) ↔
        y ∈ selected_years ∧ y ∈ colYears sub := by
    intro y
    rw [List.mem_filter]
    simp [mem_uniquePd]
  refine ⟨?_, ?_, ?_⟩
  · rw [latest_times_year, pyMax_eq_some_iff]
    constructor
    · rintro ⟨h1, h2⟩
      obtain ⟨ha, hb⟩ := (hmemf m).1 h1
      exact ⟨ha, hb, fun y hy1 hy2 => h2 y ((hmemf y).2 ⟨hy1, hy2⟩)⟩
    · rintro ⟨h1, h2, h3⟩
      exact ⟨(hmemf m).2 ⟨h1, h2⟩, fun y hy => h3 y ((hmemf y).1 hy).1 ((hmemf y).1 hy).2⟩
  · rw [latest_times_year, pyMax_eq_none_iff, List.filter_eq_nil_iff]
    constructor
    · intro h y hy hmem
      have := h y hy
      simp [mem_uniquePd] at this
      exact this hmem
    · intro h y hy
      simp [mem_uniquePd]
      exact h y hy
  · intro df unis hsub
    rw [latest_year_default, latest_times_year]
    apply pyMax_congr_mem
    intro y
    rw [mem_uniquePd, hmemf]
    constructor
    · intro hy
      refine ⟨?_, hy⟩
      rw [hsub] at hy
      simp only [colYears, times_filtered, List.mem_map, List.mem_filter] at hy
      obtain ⟨r, ⟨_, hp⟩, rfl⟩ := hy
      simp only [Bool.and_eq_true, decide_eq_true_eq] at hp
      exact hp.1
    · rintro ⟨_, hy⟩
      exact hy

theorem claim_C6_latest_period_witness :
    latest_year_default (times_filtered [⟨2020, "NJIT"⟩, ⟨2021, "NJIT"⟩] [2020] ["NJIT"])
      = latest_times_year [2020] (times_filtered [⟨2020, "NJIT"⟩, ⟨2021, "NJIT"⟩] [2020] ["NJIT"]) :=
  (claim_C6_latest_period [2020]
      (times_filtered [⟨2020, "NJIT"⟩, ⟨2021, "NJIT"⟩] [2020] ["NJIT"]) 0).2.2
    [⟨2020, "NJIT"⟩, ⟨2021, "NJIT"⟩] ["NJIT"] rfl

/-- C7: extra_times_unis returns the names present in the source table that
are neither in the common set nor equal to the anchor, in ascending
lexicographic order; consequently it is disjoint from the common set and
never contains the anchor. -/
theorem claim_C7_extras_disjoint (df : List SRow) (common : Finset String)
    (njitName : String) (u : String) :
    (u ∈ extra_times_unis df common njitName ↔
      u ∈ colNames df ∧ u ∉ common ∧ u ≠ njitName)
    ∧ List.Sorted (fun a b : String => a ≤ b) (extra_times_unis df common njitName)
    ∧ (u ∈ common → u ∉ extra_times_unis df common njitName)
    ∧ njitName ∉ extra_times_unis df common njitName := by
  have hmem : ∀ v, v ∈ extra_times_unis df common njitName ↔
      v ∈ colNames df ∧ v ∉ common ∧ v ≠ njitName := by
    intro v
    rw [extra_times_unis, (List.perm_insertionSort _ _).mem_iff, List.mem_filter,
      mem_uniquePd]
    simp
  refine ⟨hmem u, ?_, ?_, ?_⟩
  · exact List.sorted_insertionSort _ _
  · intro hu hmem'
    exact ((hmem u).1 hmem').2.1 hu
  · intro hmem'
    exact ((hmem njitName).1 hmem').2.2 rfl

theorem claim_C7_extras_disjoint_witness :
    "B" ∉ extra_times_unis [⟨2020, "B"⟩, ⟨2020, "A"⟩] {"B"} "X" :=
  (claim_C7_extras_disjoint [⟨2020, "B"⟩, ⟨2020, "A"⟩] {"B"} "X" "B").2.2.1 (by decide)

theorem splitOnChar_ne_nil (sep : Char) (l : List Char) : splitOnChar sep l ≠ [] := by
  induction l with
  | nil => simp [splitOnChar]
  | cons c cs ih =>
    simp only [splitOnChar]
    by_cases h : c = sep
    · simp [h]
    · rw [if_neg h]
      cases hs : splitOnChar sep cs with
      | nil => simp
      | cons p ps => simp

theorem splitOnChar_length (sep : Char) (l : List Char) :
    (splitOnChar sep l).length = l.count sep + 1 := by
  induction l with
  | nil => simp [splitOnChar]
  | cons c cs ih =>
    simp only [splitOnChar]
    by_cases h : c = sep
    · subst h
      rw [if_pos rfl]
      simp only [List.length_cons]
      rw [List.count_cons_self]
      omega
    · rw [if_neg h]
      cases hs : splitOnChar sep cs with
      | nil => exact absurd hs (splitOnChar_ne_nil sep cs)
      | cons p ps =>
        rw [hs] at ih
        simp only [List.length_cons] at ih ⊢
        rw [List.count_cons_of_ne (Ne.symm h)]
        omega

theorem splitOnChar_of_not_mem (sep : Char) (l : List Char) (h : sep ∉ l) :
    splitOnChar sep l = [l] := by
  induction l with
  | nil => rfl
  | cons c cs ih =>
    simp only [splitOnChar]
    have hcs : sep ∉ cs := fun hm => h (List.mem_cons_of_mem c hm)
    have hc : c ≠ sep := fun e => h (by rw [e]; exact List.mem_cons_self sep cs)
    rw [if_neg hc, ih hcs]

theorem count_hyphen_pyReplace (s : List Char) :
    (pyReplace s).count '-' = s.count '-' + s.count '–' := by
  induction s with
  | nil => simp [pyReplace]
  | cons c cs ih =>
    simp only [pyReplace, List.map_cons] at ih ⊢
    by_cases h : c = '–'
    · subst h
      rw [if_pos rfl, List.count_cons_self, List.count_cons_of_ne (by decide),
        List.count_cons_self, ih]
      omega
    · rw [if_neg h]
      by_cases h2 : c = '-'
      · subst h2
        rw [List.count_cons_self, List.count_cons_self,
          List.count_cons_of_ne (by decide), ih]
        omega
      · rw [List.count_cons_of_ne (Ne.symm h2), List.count_cons_of_ne (Ne.symm h2),
          List.count_cons_of_ne (Ne.symm h), ih]

theorem count_dropWhile_of_ne {p : Char → Bool} {x : Char}
    (h : ∀ a, p a = true → a ≠ x) : ∀ l : List Char, (l.dropWhile p).count x = l.count x := by
  intro l
  induction l with
  | nil => rfl
  | cons c cs ih =>
    rw [List.dropWhile_cons]
    by_cases hc : p c = true
    · rw [if_pos hc, ih, List.count_cons_of_ne (Ne.symm (h c hc))]
    · rw [if_neg hc]

theorem count_stripWs_of_ne {x : Char} (hx : isWsChar x = false) (l : List Char) :
    (stripWs l).count x = l.count x := by
  have h : ∀ a, isWsChar a = true → a ≠ x := by
    intro a ha e
    subst e
    rw [ha] at hx
    cases hx
  rw [stripWs, List.count_reverse, count_dropWhile_of_ne h, List.count_reverse,
    count_dropWhile_of_ne h]

theorem parseDigits_eq_some {l : List Char} {n : Nat} (h : parseDigits l = some n) :
    l ≠ [] ∧ l.all isDigitCh = true ∧ n = digitsVal l := by
  by_cases h1 : l = []
  · rw [parseDigits, if_pos h1] at h
    cases h
  · by_cases h2 : l.all isDigitCh = true
    · rw [parseDigits, if_neg h1, if_pos h2] at h
      injection h with h3
      exact ⟨h1, h2, h3.symm⟩
    · rw [parseDigits, if_neg h1, if_neg h2] at h
      cases h

theorem all_digits_counts {l : List Char} (h : l.all isDigitCh = true) :
    l.count '-' = 0 ∧ l.count '–' = 0 := by
  constructor
  · refine List.count_eq_zero.mpr fun hm => ?_
    exact absurd (List.all_eq_true.mp h _ hm) (by decide)
  · refine List.count_eq_zero.mpr fun hm => ?_
    exact absurd (List.all_eq_true.mp h _ hm) (by decide)

theorem pyInt_some_dash_le {s : List Char} {v : Int} (h : pyInt s = some v) :
    s.count '-' + s.count '–' ≤ 1 := by
  rw [← count_stripWs_of_ne (x := '-') (by decide) s,
    ← count_stripWs_of_ne (x := '–') (by decide) s]
  unfold pyInt at h
  split at h
  · cases h
  · rename_i c rest heq
    rw [heq]
    split_ifs at h with hc hp
    · subst hc
      obtain ⟨n, hn, -⟩ := Option.map_eq_some'.mp h
      obtain ⟨c1, c2⟩ := all_digits_counts (parseDigits_eq_some hn).2.1
      rw [List.count_cons_self, List.count_cons_of_ne (by decide), c1, c2]
    · subst hp
      obtain ⟨n, hn, -⟩ := Option.map_eq_some'.mp h
      obtain ⟨c1, c2⟩ := all_digits_counts (parseDigits_eq_some hn).2.1
      rw [List.count_cons_of_ne (by decide), List.count_cons_of_ne (by decide), c1, c2]
      omega
    · obtain ⟨n, hn, -⟩ := Option.map_eq_some'.mp h
      obtain ⟨c1, c2⟩ := all_digits_counts (parseDigits_eq_some hn).2.1
      rw [c1, c2]
      omega

theorem stripWs_no_ws {l : List Char} (h : ∀ c ∈ l, isWsChar c = false) :
    stripWs l = l := by
  have d1 : ∀ (t : List Char), (∀ c ∈ t, isWsChar c = false) → t.dropWhile isWsChar = t := by
    intro t ht
    cases t with
    | nil => rfl
    | cons c cs =>
      rw [List.dropWhile_cons, if_neg]
      rw [ht c (List.mem_cons_self c cs)]
      simp
  rw [stripWs, d1 l h, d1 l.reverse (fun c hc => h c (List.mem_reverse.mp hc)),
    List.reverse_reverse]

theorem parse_rank_range_two_parts {s p q : List Char} {a b : Int}
    (hsp : splitOnChar '-' (pyReplace s) = [p, q])
    (ha : pyInt p = some a) (hb : pyInt q = some b) :
    parse_rank_range s = (some a, some b, some (pyFloorDiv (a + b) 2)) := by
  unfold parse_rank_range
  rw [hsp]
  simp [ha, hb]

theorem parse_rank_range_not_two {s : List Char} {v : Int}
    (hlen : (splitOnChar '-' (pyReplace s)).length ≠ 2)
    (hv : pyInt s = some v) :
    parse_rank_range s = (some v, some v, some v) := by
  unfold parse_rank_range
  rcases hsp : splitOnChar '-' (pyReplace s) with _ | ⟨x, _ | ⟨y, _ | ⟨z, rest⟩⟩⟩
  · simp [hv]
  · simp [hv]
  · rw [hsp] at hlen
    simp at hlen
  · simp [hv]

theorem parse_rank_range_three_parts {s : List Char}
    (h : 3 ≤ (splitOnChar '-' (pyReplace s)).length) :
    parse_rank_range s = (none, none, none) := by
  have hc2 : 2 ≤ (pyReplace s).count '-' := by
    have := splitOnChar_length '-' (pyReplace s)
    omega
  have hdash : 2 ≤ s.count '-' + s.count '–' := by
    rw [count_hyphen_pyReplace] at hc2
    exact hc2
  have hint : pyInt s = none := by
    cases hp : pyInt s with
    | none => rfl
    | some v =>
      have := pyInt_some_dash_le hp
      omega
  unfold parse_rank_range
  rcases hsp : splitOnChar '-' (pyReplace s) with _ | ⟨x, _ | ⟨y, _ | ⟨z, rest⟩⟩⟩
  · simp [hint]
  · simp [hint]
  · rw [hsp] at h
    simp at h
  · simp [hint]

/-- C2: parse_rank_range replaces the en-dash by a hyphen and splits on the
hyphen; with exactly two integer parts it returns (low, high, (low+high)//2)
in textual order with truncating integer division, otherwise a single token
parsing as an integer v gives (v, v, v); concretely 501-600 gives
(501, 600, 550), the en-dash variant gives the identical result, 42 gives
(42, 42, 42), and 501-602 has midpoint 551. -/
theorem claim_C2_rank_parsing (s p q : List Char) (a b v : Int) :
    (splitOnChar '-' (pyReplace s) = [p, q] → pyInt p = some a → pyInt q = some b →
        parse_rank_range s = (some a, some b, some (pyFloorDiv (a + b) 2)))
    ∧ ((splitOnChar '-' (pyReplace s)).length ≠ 2 → pyInt s = some v →
        parse_rank_range s = (some v, some v, some v))
    ∧ parse_rank_range ("501-600".toList) = (some 501, some 600, some 550)
    ∧ parse_rank_range ("501–600".toList) = (some 501, some 600, some 550)
    ∧ parse_rank_range ("42".toList) = (some 42, some 42, some 42)
    ∧ (parse_rank_range ("501-602".toList)).2.2 = some 551 := by
  exact ⟨fun hsp ha hb => parse_rank_range_two_parts hsp ha hb,
    fun h1 h2 => parse_rank_range_not_two h1 h2,
    by decide, by decide, by decide, by decide⟩

theorem claim_C2_rank_parsing_witness :
    parse_rank_range ("7-10".toList) = (some 7, some 10, some (pyFloorDiv (7 + 10) 2)) :=
  (claim_C2_rank_parsing ("7-10".toList) ("7".toList) ("10".toList) 7 10 0).1
    (by decide) (by decide) (by decide)

/-- C3: every parse failure yields (none, none, none) and parsing is total:
a string splitting into three or more hyphen-separated parts always yields
the null triple, every input yields either the null triple or a fully
resolved triple (never a partial one, never an exception), and the
non-numeric input N/A and the empty string yield the null triple. -/
theorem claim_C3_parse_failure_null (s : List Char) :
    (3 ≤ (splitOnChar '-' (pyReplace s)).length →
        parse_rank_range s = (none, none, none))
    ∧ (parse_rank_range s = (none, none, none) ∨
        ∃ a b m, parse_rank_range s = (some a, some b, some m))
    ∧ parse_rank_range ("N/A".toList) = (none, none, none)
    ∧ parse_rank_range ("".toList) = (none, none, none) := by
  refine ⟨parse_rank_range_three_parts, ?_, by decide, by decide⟩
  unfold parse_rank_range
  split
  · split
    · exact Or.inr ⟨_, _, _, rfl⟩
    · exact Or.inl rfl
  · split
    · exact Or.inr ⟨_, _, _, rfl⟩
    · exact Or.inl rfl

theorem claim_C3_parse_failure_null_witness :
    parse_rank_range ("1-2-3".toList) = (none, none, none) :=
  (claim_C3_parse_failure_null ("1-2-3".toList)).1 (by decide)

/-- C4: build_rank_range_df retains exactly the rows whose metric cell is
non-missing and whose parsed midpoint is non-null, attaching the parsed
(low, high, mid) triple of the cell to each retained row; on the rank column
[501-600, 45, em-dash, missing] exactly two rows survive, with midpoints 550
and 45. -/
theorem claim_C4_build_rank_ranges {α : Type} (rows : List α)
    (metric : α → Option (List Char)) :
    ((build_rank_range_df rows metric).map Prod.fst
      = rows.filter (fun r =>
          match metric r with
          | none => false
          | some v => (parse_rank_range v).2.2.isSome))
    ∧ (∀ p ∈ build_rank_range_df rows metric,
        ∃ v, metric p.1 = some v ∧ p.2 = parse_rank_range v
          ∧ (parse_rank_range v).2.2.isSome = true)
    ∧ (build_rank_range_df
        [some ("501-600".toList), some ("45".toList), some ("—".toList), none]
        id).map (fun p => p.2.2.2) = [some 550, some 45]
    ∧ (build_rank_range_df
        [some ("501-600".toList), some ("45".toList), some ("—".toList), none]
        id).length = 2 := by
  refine ⟨?_, ?_, by decide, by decide⟩
  · induction rows with
    | nil => rfl
    | cons r rs ih =>
      simp only [build_rank_range_df, List.filterMap_cons] at ih ⊢
      cases hm : metric r with
      | none =>
        rw [List.filter_cons]
        simp [hm, ih]
      | some v =>
        by_cases hmid : (parse_rank_range v).2.2.isSome
        · simp [hm, hmid, List.filter_cons, ih]
        · simp [hm, hmid, List.filter_cons, ih]
  · intro p hp
    simp only [build_rank_range_df, List.mem_filter, List.mem_filterMap] at hp
    obtain ⟨⟨r, hr, hmap⟩, hmid⟩ := hp
    obtain ⟨v, hv, hpv⟩ := Option.map_eq_some'.mp hmap
    subst hpv
    exact ⟨v, hv, rfl, hmid⟩

theorem claim_C4_build_rank_ranges_witness :
    ∃ v, id (some ("501-600".toList)) = some v
      ∧ ((some 501, some 600, some 550) :
          Option Int × Option Int × Option Int) = parse_rank_range v
      ∧ (parse_rank_range v).2.2.isSome = true :=
  (claim_C4_build_rank_ranges
      [some ("501-600".toList), some ("45".toList), some ("—".toList), none] id).2.1
    (some ("501-600".toList), (some 501, some 600, some 550)) (by decide)

/-- C10: an ASCII hyphen followed by digits (a negative single integer such
as -5) is rejected by parse_rank_range — splitting yields two parts whose
first is empty, so the two-part parse fails and the result is the null
triple, not (v, v, v) — even though Python int() itself would accept the
string (second conjunct), and build_rank_range_df always drops such a row. -/
theorem claim_C10_negative_rank_rejected (ds : List Char) (h1 : ds ≠ [])
    (h2 : ∀ c ∈ ds, isDigitCh c = true) :
    parse_rank_range ('-' :: ds) = (none, none, none)
    ∧ pyInt ('-' :: ds) = some (-(digitsVal ds : Int))
    ∧ build_rank_range_df [('-' :: ds)] (fun v => some v) = [] := by
  have hall : ds.all isDigitCh = true := List.all_eq_true.mpr h2
  have hnod : ∀ c ∈ ds, c ≠ '-' ∧ c ≠ '–' := by
    intro c hc
    have hd := h2 c hc
    constructor <;> intro e <;> subst e <;> exact absurd hd (by decide)
  have hrep : pyReplace ('-' :: ds) = '-' :: ds := by
    simp only [pyReplace, List.map_cons]
    rw [if_neg (by decide)]
    congr 1
    rw [List.map_congr_left (fun c hc => if_neg (hnod c hc).2)]
    exact List.map_id ds
  have hsplit : splitOnChar '-' (pyReplace ('-' :: ds)) = [[], ds] := by
    rw [hrep]
    show (if ('-' : Char) = '-' then [] :: splitOnChar '-' ds
          else
            match splitOnChar '-' ds with
            | [] => [['-']]
            | p :: ps => ('-' :: p) :: ps) = [[], ds]
    rw [if_pos rfl, splitOnChar_of_not_mem '-' ds (fun hm => (hnod '-' hm).1 rfl)]
  have hparse : parse_rank_range ('-' :: ds) = (none, none, none) := by
    unfold parse_rank_range
    rw [hsplit]
    simp [show pyInt ([] : List Char) = none from rfl]
  refine ⟨hparse, ?_, ?_⟩
  · have hs : stripWs ('-' :: ds) = '-' :: ds := by
      apply stripWs_no_ws
      intro c hc
      rcases List.mem_cons.mp hc with rfl | hc
      · decide
      · have hd := h2 c hc
        by_contra hw
        rw [Bool.not_eq_false] at hw
        have hcs : ((c = ' ' ∨ c = '\t') ∨ c = '\n') ∨ c = '\r' := by
          simpa [isWsChar] using hw
        rcases hcs with ((rfl | rfl) | rfl) | rfl <;> exact absurd hd (by decide)
    unfold pyInt
    rw [hs]
    show (if ('-' : Char) = '-' then (parseDigits ds).map (fun n : Nat => -(n : Int))
          else if ('-' : Char) = '+' then (parseDigits ds).map (fun n : Nat => (n : Int))
          else (parseDigits ('-' :: ds)).map (fun n : Nat => (n : Int)))
        = some (-(digitsVal ds : Int))
    rw [if_pos rfl, parseDigits, if_neg h1, if_pos hall]
    rfl
  · simp [build_rank_range_df, List.filterMap_cons, hparse]

theorem claim_C10_negative_rank_rejected_witness :
    parse_rank_range ("-5".toList) = (none, none, none)
    ∧ pyInt ("-5".toList) = some (-(digitsVal ['5'] : Int))
    ∧ build_rank_range_df [("-5".toList)] (fun v => some v) = [] :=
  claim_C10_negative_rank_rejected ['5'] (by decide) (by decide)

end Ranking
